import Mathlib

/-!
Verification of the ETB market-watch engine (src/main.py) against its
natural-language specification.

The development shallowly embeds the core functions of the script:

* `remove_outliers` (src/main.py:843-851) — the bottom-decile outlier filter;
* `load_market_state` / `save_market_state` (src/main.py:853-872) — the
  snapshot store over the JSON state file;
* `analyze` (src/main.py:879-908) — the robust price aggregator;
* `fetch_usdt_peg` (src/main.py:66-70) and the `or 1.0` guard at
  src/main.py:2035 — the secondary peg-rate substitution;
* `infer` — the delta/trade inference engine.  This component is code of
  the repository that is no longer under src/ (the v42.10 header states
  "REMOVED: Trade detection algorithm"); it is modelled from the spec.

Python floats are embedded as `ℚ` (the script only ever adds, divides and
compares finitely many market prices, and every claim under study is about
order and selection, not rounding).  Python dicts are embedded as
association lists with overwrite-on-insert, matching insertion-order
semantics.  Fallible operations return `Option`.
-/

namespace EtbMarket

/-! ## Data model

One advertised order, as built by the fetchers (src/main.py:378-385,
476-483, 565-572): a dict with keys `source`, `ad_type`, `advertiser`,
`price`, `available`. -/

structure MarketAd where
  source : String
  ad_type : String
  advertiser : String
  price : ℚ
  available : ℚ
  deriving DecidableEq, Repr

/-- Currency conversion used throughout the pipeline: a raw quote-currency
price divided by the secondary peg rate (`ad["price"] / peg`,
`p / peg`). -/
def convertPrice (p peg : ℚ) : ℚ := p / peg

/-! ## Outlier filter (src/main.py:843-851) -/

/-- `prices = sorted([ad["price"] / peg for ad in ads])` — the converted
prices of the batch, ascending.  Python `sorted` is a stable sort; on a
list of rationals any correct sort agrees with it. -/
def sortedConvertedPrices (ads : List MarketAd) (peg : ℚ) : List ℚ :=
  (ads.map fun ad => convertPrice ad.price peg).insertionSort (· ≤ ·)

/-- `p10_threshold = prices[int(len(prices) * 0.10)]`.  For every feasible
length `n` (the script caps each source at 200 ads), `int(n * 0.10)`
equals `n / 10` in integer arithmetic; the index is in bounds whenever
`10 ≤ n`, so the `getD` default is never consulted there. -/
def p10Threshold (ads : List MarketAd) (peg : ℚ) : ℚ :=
  (sortedConvertedPrices ads peg).getD ((sortedConvertedPrices ads peg).length / 10) 0

/-- `remove_outliers(ads, peg)` (src/main.py:843-851): batches of fewer
than 10 ads pass through unchanged; otherwise keep exactly the ads whose
converted price is strictly above the bottom-decile threshold, in their
original order. -/
def remove_outliers (ads : List MarketAd) (peg : ℚ) : List MarketAd :=
  if ads.length < 10 then ads
  else ads.filter fun ad => decide (p10Threshold ads peg < convertPrice ad.price peg)

/-! ## Snapshot store (src/main.py:853-872) -/

/-- The per-key record stored by `save_market_state`:
`{'available': ad['available'], 'ad_type': ad.get('ad_type', 'SELL')}`. -/
structure SnapEntry where
  available : ℚ
  ad_type : String
  deriving DecidableEq, Repr

/-- The JSON object written to `market_state.json`: a string-keyed dict,
embedded as an association list in insertion order. -/
abbrev SnapState := List (String × SnapEntry)

/-- The composite identity `f"{ad['source']}|||{ad['advertiser']}|||{ad['price']}"`
(src/main.py:865).  `toString` on `ℚ` plays the role of Python float
formatting: both are injective on the price. -/
def compositeKey (ad : MarketAd) : String :=
  ad.source ++ "|||" ++ ad.advertiser ++ "|||" ++ toString ad.price

/-- Python dict assignment `state[key] = v`: overwrite the binding in
place if the key is present, else append it. -/
def dictInsert (k : String) (v : SnapEntry) : SnapState → SnapState
  | [] => [(k, v)]
  | (k₂, v₂) :: rest => if k₂ = k then (k, v) :: rest else (k₂, v₂) :: dictInsert k v rest

/-- Python dict lookup `state[key]` (as a total function returning
`Option`). -/
def dictFind (k : String) : SnapState → Option SnapEntry
  | [] => none
  | (k₂, v) :: rest => if k₂ = k then some v else dictFind k rest

/-- `save_market_state(current_ads)` (src/main.py:862-872): build a fresh
dict keyed by composite key, then dump it wholesale to the state file. -/
def save_market_state (current_ads : List MarketAd) : SnapState :=
  current_ads.foldl (fun st ad => dictInsert (compositeKey ad) ⟨ad.available, ad.ad_type⟩ st) []

/-- The state file as `load_market_state` can find it: absent, present
but unparseable by `json.load`, or a successfully saved dict.  JSON
round-trips the string-keyed records faithfully, so a saved file parses
back to the dict that was dumped. -/
inductive SnapshotFile where
  | missing
  | corrupt
  | saved (s : SnapState)

/-- `load_market_state()` (src/main.py:853-860): return the parsed dict;
on a missing file or a parse error return `{}`.  The function reads only
the file contents — no file timestamp, and the stored records carry no
capture time. -/
def load_market_state : SnapshotFile → SnapState
  | .missing => []
  | .corrupt => []
  | .saved s => s

/-- The state file as found `minutesElapsed` minutes after
`save_market_state(ads)` ran, with no intervening cycle: nothing in the
program rewrites or expires the file, so its contents are independent of
the elapsed time. -/
def snapshotFileAfter (ads : List MarketAd) (minutesElapsed : ℚ) : SnapshotFile :=
  SnapshotFile.saved (save_market_state ads)

/-! ## Price aggregator (src/main.py:879-908) -/

/-- One element of the `prices` argument of `analyze`: a number, a dict
carrying a `price` key (the call site at src/main.py:2068 passes
`[x['price'] for x in final_snapshot]`, but `analyze` also accepts the
ads themselves), or anything else (silently skipped). -/
inductive PriceItem where
  | num (p : ℚ)
  | ad (price : ℚ)
  | malformed
  deriving DecidableEq, Repr

/-- The `prices_float` extraction loop (src/main.py:883-888): numbers and
`price` fields kept in order, malformed items dropped. -/
def extractPrices : List PriceItem → List ℚ
  | [] => []
  | .num p :: rest => p :: extractPrices rest
  | .ad p :: rest => p :: extractPrices rest
  | .malformed :: rest => extractPrices rest

/-- The hard sanity band `[p for p in prices_float if 10 < p < 500]`
(src/main.py:890) — applied to the raw, pre-conversion price. -/
def survivors (prices : List PriceItem) : List ℚ :=
  (extractPrices prices).filter fun p => decide (10 < p ∧ p < 500)

/-- `clean_prices = sorted(...)` (src/main.py:890). -/
def cleanPrices (prices : List PriceItem) : List ℚ :=
  (survivors prices).insertionSort (· ≤ ·)

/-- `adj = [p / peg for p in clean_prices]` (src/main.py:894). -/
def adjPrices (prices : List PriceItem) (peg : ℚ) : List ℚ :=
  (cleanPrices prices).map fun p => convertPrice p peg

/-- One cut point of `statistics.quantiles(d, n=100, method="inclusive")`:
with `m = len(d) - 1`, `j, delta = divmod(i * m, 100)`, the cut point for
percentile rank `i` is `(d[j] * (100 - delta) + d[j + 1] * delta) / 100`.
For `2 ≤ len(d)` and `i ≤ 99` both indices are in bounds, so the `getD`
defaults are never consulted there. -/
def quantileInc (d : List ℚ) (i : ℕ) : ℚ :=
  (d.getD (i * (d.length - 1) / 100) 0 * (100 - ((i * (d.length - 1) % 100 : ℕ) : ℚ))
      + d.getD (i * (d.length - 1) / 100 + 1) 0 * ((i * (d.length - 1) % 100 : ℕ) : ℚ)) / 100

/-- The dict returned by `analyze` (src/main.py:902-908). -/
structure PriceStatistics where
  median : ℚ
  q1 : ℚ
  q3 : ℚ
  p05 : ℚ
  p95 : ℚ
  min : ℚ
  max : ℚ
  raw_data : List ℚ
  count : ℕ
  deriving DecidableEq, Repr

/-- The statistics record built in the success branch of `analyze`
(src/main.py:896-908): `quantiles[4], quantiles[24], quantiles[49],
quantiles[74], quantiles[94]` are the interpolated cut points for
percentile ranks 5, 25, 50, 75, 95, and `min`/`max` are `adj[0]` and
`adj[-1]`.  The `except` fallback at src/main.py:899-901 is dead code:
`statistics.quantiles(..., method="inclusive")` succeeds on every dataset
of at least two points, and `analyze` has already returned `None` below
two; only the `try` branch is therefore modelled. -/
def analyzeStats (prices : List PriceItem) (peg : ℚ) : PriceStatistics :=
  { median := quantileInc (adjPrices prices peg) 50
    q1 := quantileInc (adjPrices prices peg) 25
    q3 := quantileInc (adjPrices prices peg) 75
    p05 := quantileInc (adjPrices prices peg) 5
    p95 := quantileInc (adjPrices prices peg) 95
    min := (adjPrices prices peg).getD 0 0
    max := (adjPrices prices peg).getD ((adjPrices prices peg).length - 1) 0
    raw_data := adjPrices prices peg
    count := (adjPrices prices peg).length }

/-- `analyze(prices, peg)` (src/main.py:879-908): `None` on an empty
argument, `None` when fewer than two prices survive the sanity band,
otherwise the statistics record over the converted series. -/
def analyze (prices : List PriceItem) (peg : ℚ) : Option PriceStatistics :=
  if prices.isEmpty then none
  else if (cleanPrices prices).length < 2 then none
  else some (analyzeStats prices peg)

/-! ## Secondary peg rate (src/main.py:66-70, src/main.py:2035) -/

/-- Outcome of the CoinGecko request in `fetch_usdt_peg`: a parsed
tether/usd value, or any exception (network error, timeout, non-JSON
body, missing field, non-numeric value). -/
inductive PegFetchOutcome where
  | success (v : ℚ)
  | failure

/-- `fetch_usdt_peg()` (src/main.py:66-70): the fetched value, or `1.00`
when anything goes wrong (the bare `except` catches every exception). -/
def fetch_usdt_peg : PegFetchOutcome → ℚ
  | .success v => v
  | .failure => 1

/-- `peg = fetch_usdt_peg() or 1.0` (src/main.py:2035): Python `or`
replaces a falsy `0.0` with `1.0`. -/
def main_peg (o : PegFetchOutcome) : ℚ :=
  if fetch_usdt_peg o = 0 then 1 else fetch_usdt_peg o

/-! ## Delta / trade inference engine

Modelled from the spec: the engine itself is code of this repository that
is not under src/ — the v42.10 script header records "REMOVED: Trade
detection algorithm (replaced with real API data)", and only its
collaborators (`load_market_state` / `save_market_state`) remain.  The
definitions below follow spec §4.5 word for word: per current ad, look up
the composite key in the previous snapshot; absent keys produce nothing;
otherwise `delta = previousAmount - currentAmount`, with `delta ≤
dustThreshold` ignored as noise, `delta < 0` (a restock) ignored, `delta ≥
whaleCeiling` ignored as probable ad churn, and only the remaining band
emitting a `TradeEvent` with `volume = delta` and the direction opposite
to the ad side. -/

/-- Modelled from the spec: an inferred execution (spec §3,
`TradeEvent`). -/
structure TradeEvent where
  timestamp : ℚ
  exchangeId : String
  direction : String
  price : ℚ
  volume : ℚ
  deriving DecidableEq, Repr

/-- Modelled from the spec: step 1-3 of the inference algorithm
(spec §4.5) for a single current ad. -/
def inferAd (previousSnapshot : SnapState) (dustThreshold whaleCeiling now : ℚ)
    (ad : MarketAd) : Option TradeEvent :=
  match dictFind (compositeKey ad) previousSnapshot with
  | none => none
  | some prev =>
    if prev.available - ad.available ≤ dustThreshold then none
    else if prev.available - ad.available < 0 then none
    else if whaleCeiling ≤ prev.available - ad.available then none
    else some { timestamp := now
                exchangeId := ad.source
                direction := if ad.ad_type = "SELL" then "BUY" else "SELL"
                price := ad.price
                volume := prev.available - ad.available }

/-- Modelled from the spec: `infer(currentAds, previousSnapshot)`
(spec §4.5).  Ads present only in the previous snapshot contribute
nothing (step 4): the traversal runs over the current ads alone. -/
def infer (currentAds : List MarketAd) (previousSnapshot : SnapState)
    (dustThreshold whaleCeiling now : ℚ) : List TradeEvent :=
  currentAds.filterMap (inferAd previousSnapshot dustThreshold whaleCeiling now)

/-! ## Claim C1: first-run inference -/

/-- C1.  For every list of current ads (and every dust threshold, whale
ceiling and cycle time), running the trade-inference engine against an
empty previous snapshot returns an empty trade list.  The engine is a
total function, so no error arises. -/
theorem C1_infer_empty_snapshot (currentAds : List MarketAd)
    (dustThreshold whaleCeiling now : ℚ) :
    infer currentAds [] dustThreshold whaleCeiling now = [] := by
  induction currentAds with
  | nil => rfl
  | cons a t ih =>
      simp only [infer, List.filterMap_cons] at ih ⊢
      simp only [inferAd, dictFind]
      exact ih

/-! ## Claim C2: restocks are never trades -/

/-- C2.  If a current ad's composite key is present in the previous
snapshot with a smaller previous inventory (the inventory increased — a
restock), the inference engine emits no `TradeEvent` for that ad,
whatever the magnitude of the increase and whatever the configured dust
threshold and whale ceiling.  (`infer` is the `filterMap` of `inferAd`,
so a `none` per-ad result means no event originates from the ad.) -/
theorem C2_restock_no_event (previousSnapshot : SnapState) (ad : MarketAd)
    (dustThreshold whaleCeiling now : ℚ) (prev : SnapEntry)
    (hfind : dictFind (compositeKey ad) previousSnapshot = some prev)
    (hincr : prev.available < ad.available) :
    inferAd previousSnapshot dustThreshold whaleCeiling now ad = none := by
  unfold inferAd
  rw [hfind]
  have hneg : prev.available - ad.available < 0 := by linarith
  by_cases h1 : prev.available - ad.available ≤ dustThreshold
  · simp [h1]
  · simp [h1, hneg]

/-- Snapshot recording advertiser `alice` on BINANCE at price 130 with
100 units of inventory. -/
def snapC2 : SnapState := [("BINANCE|||alice|||130", ⟨100, "SELL"⟩)]

/-- The same ad one poll later with inventory grown to 150 — a restock of
50 units (well above any dust threshold in use). -/
def adC2 : MarketAd := ⟨"BINANCE", "SELL", "alice", 130, 150⟩

/-- C2 witness: at the concrete restocked ad, the key is present with a
smaller previous amount and the engine emits nothing, at the spec's
default thresholds (dust 5, whale 20000). -/
theorem C2_restock_no_event_witness :
    dictFind (compositeKey adC2) snapC2 = some ⟨100, "SELL"⟩ ∧
      (⟨100, "SELL"⟩ : SnapEntry).available < adC2.available ∧
      inferAd snapC2 5 20000 0 adC2 = none := by
  refine ⟨by decide, by norm_num [adC2], ?_⟩
  exact C2_restock_no_event snapC2 adC2 5 20000 0 ⟨100, "SELL"⟩ (by decide)
    (by norm_num [adC2])

/-! ## Claim C8: snapshot staleness -/

/-- A concrete saved snapshot: one BINANCE sell ad by `alice` at price
130 with 500 units available. -/
def adC8 : MarketAd := ⟨"BINANCE", "SELL", "alice", 130, 500⟩

/-- C8 counterexample.  The claim says a snapshot older than the ~20
minute staleness bound is treated as empty and never returned as live
data.  In the code, `save_market_state` stores no timestamp and
`load_market_state` reads only the file contents, so a snapshot loaded
1440 minutes (24 hours) after it was saved comes back in full: the
composite key still maps to the saved 500 units, and the result is not
the empty snapshot. -/
theorem C8_counterexample :
    dictFind (compositeKey adC8)
        (load_market_state (snapshotFileAfter [adC8] 1440)) = some ⟨500, "SELL"⟩ ∧
      load_market_state (snapshotFileAfter [adC8] 1440) ≠ [] := by
  constructor
  · decide
  · decide

/-- C8 amended.  `load_market_state` returns an empty snapshot exactly
when the state file is missing or unparseable; a successfully saved
snapshot is returned as-is regardless of its age — no timestamp is
saved or consulted, so no staleness bound exists. -/
theorem C8_amended_load_semantics :
    load_market_state SnapshotFile.missing = [] ∧
      load_market_state SnapshotFile.corrupt = [] ∧
      (∀ ads minutesElapsed,
        load_market_state (snapshotFileAfter ads minutesElapsed) = save_market_state ads) :=
  ⟨rfl, rfl, fun _ _ => rfl⟩

/-! ## Claim C9: peg fetch failure -/

/-- C9.  When the secondary peg-rate fetch fails for any reason (the bare
`except` in `fetch_usdt_peg` catches every exception), the substituted
multiplier is exactly `1.0`, it survives the `or 1.0` guard at the call
site unchanged, and every downstream converted price then equals the raw
price — the pipeline keeps producing output from raw prices instead of
failing. -/
theorem C9_peg_failure_neutral :
    fetch_usdt_peg PegFetchOutcome.failure = 1 ∧
      main_peg PegFetchOutcome.failure = 1 ∧
      (∀ p : ℚ, convertPrice p (fetch_usdt_peg PegFetchOutcome.failure) = p) ∧
      (∀ prices : List PriceItem, analyze prices (main_peg PegFetchOutcome.failure)
          = analyze prices 1) := by
  refine ⟨rfl, rfl, fun p => ?_, fun prices => rfl⟩
  simp [convertPrice, fetch_usdt_peg]

/-! ## Claim C10: small batches bypass the outlier filter -/

/-- C10.  For every list of fewer than 10 ads and every peg rate,
`remove_outliers` returns the input list itself — no decile cut or other
filtering happens below that size. -/
theorem C10_small_batch_unchanged (ads : List MarketAd) (peg : ℚ)
    (h : ads.length < 10) :
    remove_outliers ads peg = ads := by
  unfold remove_outliers
  exact if_pos h

/-- A nine-ad batch (below the size-10 gate), with prices spread widely
enough that the decile cut would drop something if it ran. -/
def adsC10 : List MarketAd :=
  [⟨"BINANCE", "SELL", "a1", 1, 10⟩, ⟨"BINANCE", "SELL", "a2", 120, 10⟩,
   ⟨"MEXC", "SELL", "a3", 121, 10⟩, ⟨"MEXC", "SELL", "a4", 122, 10⟩,
   ⟨"OKX", "SELL", "a5", 123, 10⟩, ⟨"OKX", "SELL", "a6", 124, 10⟩,
   ⟨"BINANCE", "BUY", "a7", 125, 10⟩, ⟨"MEXC", "BUY", "a8", 126, 10⟩,
   ⟨"OKX", "BUY", "a9", 127, 10⟩]

/-- C10 witness: the concrete nine-ad batch is returned unchanged. -/
theorem C10_small_batch_unchanged_witness :
    adsC10.length < 10 ∧ remove_outliers adsC10 1 = adsC10 :=
  ⟨by decide, C10_small_batch_unchanged adsC10 1 (by decide)⟩

/-! ## Claim C7: snapshot round-trip -/

/-- Looking up the key just inserted finds the inserted record. -/
lemma dictFind_dictInsert_self (k : String) (v : SnapEntry) (st : SnapState) :
    dictFind k (dictInsert k v st) = some v := by
  induction st with
  | nil => simp [dictInsert, dictFind]
  | cons kv rest ih =>
      obtain ⟨k₂, v₂⟩ := kv
      by_cases h : k₂ = k
      · simp [dictInsert, dictFind, h]
      · simp [dictInsert, dictFind, h, ih]

/-- Inserting under one key leaves lookups of every other key unchanged. -/
lemma dictFind_dictInsert_ne {k₁ k : String} (h : k₁ ≠ k) (v : SnapEntry) (st : SnapState) :
    dictFind k (dictInsert k₁ v st) = dictFind k st := by
  induction st with
  | nil => simp [dictInsert, dictFind, h]
  | cons kv rest ih =>
      obtain ⟨k₂, v₂⟩ := kv
      by_cases h2 : k₂ = k₁
      · subst h2
        have h2k : ¬ k₂ = k := h
        simp [dictInsert, dictFind, h2k]
      · by_cases h3 : k₂ = k
        · subst h3
          simp [dictInsert, dictFind, h2]
        · simp [dictInsert, dictFind, h2, h3, ih]

/-- Folding the save loop over ads none of which carry key `k` leaves the
binding of `k` unchanged. -/
lemma dictFind_saveFold_notmem (k : String) (ads : List MarketAd) (st : SnapState)
    (h : ∀ a ∈ ads, compositeKey a ≠ k) :
    dictFind k
        (ads.foldl (fun st ad => dictInsert (compositeKey ad) ⟨ad.available, ad.ad_type⟩ st) st)
      = dictFind k st := by
  induction ads generalizing st with
  | nil => rfl
  | cons a t ih =>
      rw [List.foldl_cons, ih _ fun b hb => h b (List.mem_cons_of_mem a hb)]
      exact dictFind_dictInsert_ne (h a (List.mem_cons_self a t)) _ st

/-- Core of the round-trip: with pairwise-distinct composite keys, the
save loop binds each ad's key to that ad's record, whatever dict it
started from. -/
lemma dictFind_saveFold_mem (ad : MarketAd) (ads : List MarketAd) (st : SnapState)
    (had : ad ∈ ads)
    (hdist : ads.Pairwise fun a b => compositeKey a ≠ compositeKey b) :
    dictFind (compositeKey ad)
        (ads.foldl (fun st a => dictInsert (compositeKey a) ⟨a.available, a.ad_type⟩ st) st)
      = some ⟨ad.available, ad.ad_type⟩ := by
  induction ads generalizing st with
  | nil => cases had
  | cons a t ih =>
      obtain ⟨hhead, htail⟩ := List.pairwise_cons.1 hdist
      rw [List.foldl_cons]
      rcases List.mem_cons.1 had with rfl | hmem
      · rw [dictFind_saveFold_notmem _ t _ fun b hb => (hhead b hb).symm]
        exact dictFind_dictInsert_self _ _ st
      · exact ih (dictInsert (compositeKey a) ⟨a.available, a.ad_type⟩ st) hmem htail

/-- C7 counterexample.  The claim quantifies over every list of ads, but
`save_market_state` keys the state dict by `(source, advertiser, price)`
alone: two ads sharing that triple overwrite one another.  Saving this
pair (same advertiser, same price, inventories 500 and 480) and loading
back yields 480 under the shared key — not the first ad's 500. -/
theorem C7_counterexample :
    dictFind (compositeKey (⟨"BINANCE", "SELL", "alice", 130, 500⟩ : MarketAd))
        (load_market_state (SnapshotFile.saved (save_market_state
          [⟨"BINANCE", "SELL", "alice", 130, 500⟩, ⟨"BINANCE", "SELL", "alice", 130, 480⟩])))
        = some ⟨480, "SELL"⟩ ∧
      dictFind (compositeKey (⟨"BINANCE", "SELL", "alice", 130, 500⟩ : MarketAd))
          (load_market_state (SnapshotFile.saved (save_market_state
            [⟨"BINANCE", "SELL", "alice", 130, 500⟩, ⟨"BINANCE", "SELL", "alice", 130, 480⟩])))
          ≠ some ⟨(⟨"BINANCE", "SELL", "alice", 130, 500⟩ : MarketAd).available,
              (⟨"BINANCE", "SELL", "alice", 130, 500⟩ : MarketAd).ad_type⟩ := by
  constructor
  · decide
  · decide

/-- C7 amended.  For every list of ads whose composite keys are pairwise
distinct, saving and immediately loading yields a snapshot in which each
ad's composite key maps exactly to that ad's available amount (and
ad type). -/
theorem C7_amended_round_trip (ads : List MarketAd)
    (hdist : ads.Pairwise fun a b => compositeKey a ≠ compositeKey b) :
    ∀ ad ∈ ads,
      dictFind (compositeKey ad)
          (load_market_state (SnapshotFile.saved (save_market_state ads)))
        = some ⟨ad.available, ad.ad_type⟩ :=
  fun ad had => dictFind_saveFold_mem ad ads [] had hdist

/-- A two-ad poll with distinct composite keys. -/
def adsC7 : List MarketAd :=
  [⟨"BINANCE", "SELL", "alice", 130, 500⟩, ⟨"OKX", "BUY", "bob", 131, 250⟩]

/-- C7 witness: on the concrete two-ad poll the keys are pairwise
distinct and the round trip recovers bob's 250 units under his key. -/
theorem C7_amended_round_trip_witness :
    (adsC7.Pairwise fun a b => compositeKey a ≠ compositeKey b) ∧
      dictFind (compositeKey (⟨"OKX", "BUY", "bob", 131, 250⟩ : MarketAd))
          (load_market_state (SnapshotFile.saved (save_market_state adsC7)))
        = some ⟨250, "BUY"⟩ :=
  ⟨by decide, C7_amended_round_trip adsC7 (by decide) _ (by decide)⟩

/-! ## Claim C5: outlier-filter idempotence -/

/-- Below the size-10 gate the filter is the identity. -/
lemma remove_outliers_of_short {ads : List MarketAd} {peg : ℚ} (h : ads.length < 10) :
    remove_outliers ads peg = ads := by
  unfold remove_outliers
  exact if_pos h

/-- On a batch of at least 10 ads the filter strictly shrinks the list:
the decile threshold is itself one of the batch's converted prices, and
the ad attaining it fails the strict `>` comparison. -/
lemma remove_outliers_shrinks (ads : List MarketAd) (peg : ℚ) (h10 : 10 ≤ ads.length) :
    (remove_outliers ads peg).length < ads.length := by
  have hlen : (sortedConvertedPrices ads peg).length = ads.length := by
    simp [sortedConvertedPrices, List.length_insertionSort]
  have hidx : (sortedConvertedPrices ads peg).length / 10
      < (sortedConvertedPrices ads peg).length :=
    Nat.div_lt_self (by omega) (by norm_num)
  have hmem : p10Threshold ads peg ∈ sortedConvertedPrices ads peg := by
    rw [p10Threshold, List.getD_eq_getElem _ _ hidx]
    exact List.getElem_mem hidx
  have hmem2 : p10Threshold ads peg ∈ ads.map fun ad => convertPrice ad.price peg :=
    ((List.perm_insertionSort (· ≤ ·) _).mem_iff).1 hmem
  obtain ⟨ad, had, hconv⟩ := List.mem_map.1 hmem2
  unfold remove_outliers
  rw [if_neg (by omega)]
  refine List.length_filter_lt_length_iff_exists.2 ⟨ad, had, ?_⟩
  simp [hconv]

/-- A realistic 12-ad batch with distinct prices 121..132 ETB. -/
def adsC5 : List MarketAd :=
  [⟨"BINANCE", "SELL", "a1", 121, 10⟩, ⟨"BINANCE", "SELL", "a2", 122, 10⟩,
   ⟨"BINANCE", "SELL", "a3", 123, 10⟩, ⟨"BINANCE", "SELL", "a4", 124, 10⟩,
   ⟨"MEXC", "SELL", "a5", 125, 10⟩, ⟨"MEXC", "SELL", "a6", 126, 10⟩,
   ⟨"MEXC", "SELL", "a7", 127, 10⟩, ⟨"MEXC", "SELL", "a8", 128, 10⟩,
   ⟨"OKX", "SELL", "a9", 129, 10⟩, ⟨"OKX", "SELL", "a10", 130, 10⟩,
   ⟨"OKX", "SELL", "a11", 131, 10⟩, ⟨"OKX", "SELL", "a12", 132, 10⟩]

/-- C5 counterexample.  On the concrete 12-ad batch the first application
keeps the 10 ads priced above 122; the second application, run on those
10 ads, cuts a fresh bottom decile (everything at or below 124) and
returns only 8 ads — the filter is not idempotent. -/
theorem C5_counterexample :
    remove_outliers (remove_outliers adsC5 1) 1 ≠ remove_outliers adsC5 1 := by
  norm_num [remove_outliers, p10Threshold, sortedConvertedPrices, adsC5, convertPrice,
    List.insertionSort, List.orderedInsert, List.getD, List.filter]

/-- C5 amended.  Applying `remove_outliers` to its own output returns
that output unchanged exactly when the output has fewer than 10 ads;
whenever 10 or more ads remain, a second application strictly removes
further ads, so the filter is not idempotent in general. -/
theorem C5_amended_second_pass (ads : List MarketAd) (peg : ℚ) (hpeg : 0 < peg) :
    remove_outliers (remove_outliers ads peg) peg = remove_outliers ads peg ↔
      (remove_outliers ads peg).length < 10 := by
  constructor
  · intro heq
    by_contra h10
    have hlt := remove_outliers_shrinks (remove_outliers ads peg) peg (by omega)
    rw [heq] at hlt
    omega
  · intro h10
    exact remove_outliers_of_short h10

/-- C5 witness: the amended equivalence at the concrete 12-ad batch
(both sides false there: the first output keeps 10 ads and the second
pass shrinks it). -/
theorem C5_amended_second_pass_witness :
    (0:ℚ) < 1 ∧
      (remove_outliers (remove_outliers adsC5 1) 1 = remove_outliers adsC5 1 ↔
        (remove_outliers adsC5 1).length < 10) :=
  ⟨by norm_num, C5_amended_second_pass adsC5 1 (by norm_num)⟩

/-! ## Sorted-list and interpolation helpers for the aggregator claims -/

/-- In a sorted list, values at earlier positions are at most values at
later (in-bounds) positions. -/
lemma sorted_getD_le {l : List ℚ} (hs : l.Sorted (· ≤ ·)) {a b : ℕ} (hab : a ≤ b)
    (hb : b < l.length) (x : ℚ) : l.getD a x ≤ l.getD b x := by
  have ha : a < l.length := lt_of_le_of_lt hab hb
  rw [List.getD_eq_getElem l x ha, List.getD_eq_getElem l x hb]
  have h2 : (⟨a, ha⟩ : Fin l.length) ≤ ⟨b, hb⟩ := hab
  simpa using hs.rel_get_of_le h2

/-- Linear interpolation between two ordered values stays between them. -/
lemma interp_between {a b : ℚ} (hab : a ≤ b) {d : ℕ} (hd : d ≤ 100) :
    a ≤ (a * (100 - (d : ℚ)) + b * d) / 100 ∧ (a * (100 - (d : ℚ)) + b * d) / 100 ≤ b := by
  have h0 : (0:ℚ) ≤ (d:ℚ) := Nat.cast_nonneg d
  have h1 : (d:ℚ) ≤ 100 := by exact_mod_cast hd
  constructor
  · rw [le_div_iff₀ (by norm_num : (0:ℚ) < 100)]
    nlinarith
  · rw [div_le_iff₀ (by norm_num : (0:ℚ) < 100)]
    nlinarith

/-- Both order statistics consulted by `quantileInc` are in bounds for a
dataset of at least two points and a rank of at most 99. -/
lemma quantileInc_index_lt {l : List ℚ} (hl : 2 ≤ l.length) {i : ℕ} (hi : i ≤ 99) :
    i * (l.length - 1) / 100 + 1 ≤ l.length - 1 := by
  have h1 : i * (l.length - 1) ≤ 99 * (l.length - 1) := Nat.mul_le_mul_right _ hi
  have h2 : i * (l.length - 1) < 100 * (l.length - 1) := by omega
  have h3 : i * (l.length - 1) / 100 < l.length - 1 := Nat.div_lt_of_lt_mul h2
  omega

/-- On a sorted dataset of at least two points, every interpolated cut
point lies between the first and the last element. -/
lemma quantileInc_between {l : List ℚ} (hs : l.Sorted (· ≤ ·)) (hl : 2 ≤ l.length)
    {i : ℕ} (hi : i ≤ 99) :
    l.getD 0 0 ≤ quantileInc l i ∧ quantileInc l i ≤ l.getD (l.length - 1) 0 := by
  have hidx := quantileInc_index_lt hl hi
  unfold quantileInc
  set j := i * (l.length - 1) / 100 with hj
  have hj1 : j + 1 < l.length := by omega
  have hjl : j < l.length := by omega
  have hab : l.getD j 0 ≤ l.getD (j + 1) 0 := sorted_getD_le hs (Nat.le_succ j) hj1 0
  have hd : i * (l.length - 1) % 100 ≤ 100 := le_of_lt (Nat.mod_lt _ (by norm_num))
  have hb := interp_between hab hd
  constructor
  · exact le_trans (sorted_getD_le hs (Nat.zero_le j) hjl 0) hb.1
  · exact le_trans hb.2 (sorted_getD_le hs (show j + 1 ≤ l.length - 1 by omega) (by omega) 0)

/-- On a sorted dataset of at least two points, the interpolated cut
points are monotone in the percentile rank. -/
lemma quantileInc_mono {l : List ℚ} (hs : l.Sorted (· ≤ ·)) (hl : 2 ≤ l.length)
    {i₁ i₂ : ℕ} (h12 : i₁ ≤ i₂) (hi : i₂ ≤ 99) :
    quantileInc l i₁ ≤ quantileInc l i₂ := by
  have hidx₂ := quantileInc_index_lt hl hi
  have hidx₁ := quantileInc_index_lt hl (le_trans h12 hi)
  have hxle : i₁ * (l.length - 1) ≤ i₂ * (l.length - 1) := Nat.mul_le_mul_right _ h12
  unfold quantileInc
  set x₁ := i₁ * (l.length - 1) with hx1
  set x₂ := i₂ * (l.length - 1) with hx2
  have hjle : x₁ / 100 ≤ x₂ / 100 := Nat.div_le_div_right hxle
  have hj₁1 : x₁ / 100 + 1 < l.length := by omega
  have hj₂1 : x₂ / 100 + 1 < l.length := by omega
  have hab₁ : l.getD (x₁ / 100) 0 ≤ l.getD (x₁ / 100 + 1) 0 :=
    sorted_getD_le hs (Nat.le_succ _) hj₁1 0
  have hab₂ : l.getD (x₂ / 100) 0 ≤ l.getD (x₂ / 100 + 1) 0 :=
    sorted_getD_le hs (Nat.le_succ _) hj₂1 0
  have hd₁ : x₁ % 100 < 100 := Nat.mod_lt _ (by norm_num)
  have hd₂ : x₂ % 100 < 100 := Nat.mod_lt _ (by norm_num)
  rcases Nat.lt_or_ge (x₁ / 100) (x₂ / 100) with hlt | hge
  · have h1 := (interp_between hab₁ (le_of_lt hd₁)).2
    have h2 := (interp_between hab₂ (le_of_lt hd₂)).1
    have hmid : l.getD (x₁ / 100 + 1) 0 ≤ l.getD (x₂ / 100) 0 :=
      sorted_getD_le hs hlt (by omega) 0
    exact le_trans h1 (le_trans hmid h2)
  · have heq : x₁ / 100 = x₂ / 100 := le_antisymm hjle hge
    have hdle : x₁ % 100 ≤ x₂ % 100 := by
      have e1 := Nat.div_add_mod x₁ 100
      have e2 := Nat.div_add_mod x₂ 100
      omega
    rw [heq]
    have hc1 : ((x₁ % 100 : ℕ) : ℚ) ≤ ((x₂ % 100 : ℕ) : ℚ) := by exact_mod_cast hdle
    rw [div_le_div_iff₀ (by norm_num : (0:ℚ) < 100) (by norm_num : (0:ℚ) < 100)]
    nlinarith [mul_nonneg (sub_nonneg.2 hc1) (sub_nonneg.2 hab₂)]

/-- The converted series inherits sortedness from the sorted clean series
when the peg rate is positive. -/
lemma sorted_adjPrices (prices : List PriceItem) {peg : ℚ} (hpeg : 0 < peg) :
    (adjPrices prices peg).Sorted (· ≤ ·) := by
  have hs : (cleanPrices prices).Sorted (· ≤ ·) := List.sorted_insertionSort _ _
  exact List.Pairwise.map _
    (fun a b hab => by simpa [convertPrice] using (div_le_div_iff_of_pos_right hpeg).mpr hab) hs

/-- The converted series has one entry per sanity-band survivor. -/
lemma adjPrices_length (prices : List PriceItem) (peg : ℚ) :
    (adjPrices prices peg).length = (survivors prices).length := by
  simp [adjPrices, cleanPrices, List.length_insertionSort]

/-- First element of a nonempty sorted list is a member and a lower
bound. -/
lemma sorted_getD_zero_min {l : List ℚ} (hs : l.Sorted (· ≤ ·)) (hl : 0 < l.length) :
    l.getD 0 0 ∈ l ∧ ∀ x ∈ l, l.getD 0 0 ≤ x := by
  cases l with
  | nil => simp at hl
  | cons a t =>
      refine ⟨by simp, fun x hx => ?_⟩
      rcases List.mem_cons.1 hx with rfl | hx
      · simp
      · simpa using List.rel_of_sorted_cons hs x hx

/-- Last element of a nonempty sorted list is a member and an upper
bound. -/
lemma sorted_getD_last_max {l : List ℚ} (hs : l.Sorted (· ≤ ·)) (hl : 0 < l.length) :
    l.getD (l.length - 1) 0 ∈ l ∧ ∀ x ∈ l, x ≤ l.getD (l.length - 1) 0 := by
  have hlt : l.length - 1 < l.length := by omega
  refine ⟨?_, fun x hx => ?_⟩
  · rw [List.getD_eq_getElem _ _ hlt]
    exact List.getElem_mem hlt
  · obtain ⟨i, hi, rfl⟩ := List.mem_iff_getElem.1 hx
    rw [← List.getD_eq_getElem l 0 hi]
    exact sorted_getD_le hs (by omega) hlt 0

/-- Case analysis of `analyze`: it returns `none` exactly below two
sanity-band survivors and the statistics record from two survivors
upward. -/
lemma analyze_cases (prices : List PriceItem) (peg : ℚ) :
    (analyze prices peg = none ∧ (survivors prices).length < 2) ∨
    (analyze prices peg = some (analyzeStats prices peg) ∧ 2 ≤ (survivors prices).length) := by
  unfold analyze
  have hlen : (cleanPrices prices).length = (survivors prices).length := by
    simp [cleanPrices, List.length_insertionSort]
  by_cases he : prices.isEmpty = true
  · left
    have hnil : prices = [] := by
      cases prices with
      | nil => rfl
      | cons a t => simp [List.isEmpty] at he
    subst hnil
    simp [survivors, extractPrices]
  · rw [if_neg he]
    by_cases h2 : (cleanPrices prices).length < 2
    · left
      rw [if_pos h2]
      exact ⟨rfl, by omega⟩
    · right
      rw [if_neg h2]
      exact ⟨rfl, by omega⟩

/-! ## Claim C3: insufficient data -/

/-- C3.  For every price list and positive peg rate (the pipeline
guarantees a positive peg: `fetch_usdt_peg` falls back to `1.00` and the
`or 1.0` guard replaces a zero), `analyze` returns `None` exactly when
fewer than two prices survive the hard sanity band; with at least two
survivors it returns a statistics record — the function is total, so no
exception escapes. -/
theorem C3_insufficient_data (prices : List PriceItem) (peg : ℚ) (hpeg : 0 < peg) :
    analyze prices peg = none ↔ (survivors prices).length < 2 := by
  rcases analyze_cases prices peg with ⟨h1, h2⟩ | ⟨h1, h2⟩
  · simp [h1, h2]
  · simp only [h1]
    constructor
    · intro h
      cases h
    · intro h
      omega

/-- Two in-band prices plus one malformed entry. -/
def pricesC3 : List PriceItem :=
  [PriceItem.num 120, PriceItem.num 125, PriceItem.malformed]

/-- C3 witness: on the concrete list exactly two prices survive, and
`analyze` accordingly does not return `None`. -/
theorem C3_insufficient_data_witness :
    (0:ℚ) < 1 ∧ (analyze pricesC3 1 = none ↔ (survivors pricesC3).length < 2) :=
  ⟨by norm_num, C3_insufficient_data pricesC3 1 (by norm_num)⟩

/-! ## Claim C4: quantile ordering -/

/-- C4.  Whenever `analyze` returns a statistics record (equivalently, at
least two prices lie inside the sanity band) for a positive peg rate, the
record satisfies `q1 ≤ median ≤ q3` and `min ≤ p05 ≤ median ≤ p95 ≤ max`,
where `min` and `max` are the extremes of the sorted filtered converted
series. -/
theorem C4_statistics_ordering (prices : List PriceItem) (peg : ℚ) (hpeg : 0 < peg)
    (s : PriceStatistics) (hs : analyze prices peg = some s) :
    s.q1 ≤ s.median ∧ s.median ≤ s.q3 ∧
      s.min ≤ s.p05 ∧ s.p05 ≤ s.median ∧ s.median ≤ s.p95 ∧ s.p95 ≤ s.max := by
  rcases analyze_cases prices peg with ⟨h1, _⟩ | ⟨h1, h2⟩
  · rw [h1] at hs
    cases hs
  · rw [h1] at hs
    obtain rfl := Option.some.inj hs
    have hsorted := sorted_adjPrices prices hpeg
    have hlen : 2 ≤ (adjPrices prices peg).length := by
      rw [adjPrices_length]
      exact h2
    simp only [analyzeStats]
    refine ⟨?_, ?_, ?_, ?_, ?_, ?_⟩
    · exact quantileInc_mono hsorted hlen (by norm_num) (by norm_num)
    · exact quantileInc_mono hsorted hlen (by norm_num) (by norm_num)
    · exact (quantileInc_between hsorted hlen (by norm_num)).1
    · exact quantileInc_mono hsorted hlen (by norm_num) (by norm_num)
    · exact quantileInc_mono hsorted hlen (by norm_num) (by norm_num)
    · exact (quantileInc_between hsorted hlen (by norm_num)).2

/-- Four in-band prices (one of them an ad dict) plus a malformed
entry. -/
def pricesC4 : List PriceItem :=
  [PriceItem.num 136, PriceItem.num 124, PriceItem.ad 130, PriceItem.num 118,
   PriceItem.malformed]

/-- C4 witness: on the concrete five-item list `analyze` returns the
statistics record and the seven orderings hold there. -/
theorem C4_statistics_ordering_witness :
    (0:ℚ) < 1 ∧ analyze pricesC4 1 = some (analyzeStats pricesC4 1) ∧
      ((analyzeStats pricesC4 1).q1 ≤ (analyzeStats pricesC4 1).median ∧
        (analyzeStats pricesC4 1).median ≤ (analyzeStats pricesC4 1).q3 ∧
        (analyzeStats pricesC4 1).min ≤ (analyzeStats pricesC4 1).p05 ∧
        (analyzeStats pricesC4 1).p05 ≤ (analyzeStats pricesC4 1).median ∧
        (analyzeStats pricesC4 1).median ≤ (analyzeStats pricesC4 1).p95 ∧
        (analyzeStats pricesC4 1).p95 ≤ (analyzeStats pricesC4 1).max) :=
  ⟨by norm_num,
   by norm_num [analyze, pricesC4, cleanPrices, survivors, extractPrices, List.filter, List.isEmpty,
     List.insertionSort, List.orderedInsert],
   C4_statistics_ordering pricesC4 1 (by norm_num) (analyzeStats pricesC4 1)
     (by norm_num [analyze, pricesC4, cleanPrices, survivors, extractPrices, List.filter, List.isEmpty,
       List.insertionSort, List.orderedInsert])⟩

/-! ## Claim C6: what the sanity band selects -/

/-- Follows the spec text of claim C6, not the source: the prices whose
converted value `p / peg` lies inside the hard sanity band. -/
def survivorsConvertedBand (prices : List PriceItem) (peg : ℚ) : List ℚ :=
  (extractPrices prices).filter fun p => decide (10 < p / peg ∧ p / peg < 500)

/-- C6 counterexample.  With raw prices 15, 16, 17 and peg rate 2, no
converted value (7.5, 8, 8.5) lies in the band, so under the claim the
aggregator would report insufficient data; the code instead applies the
band to the raw prices, keeps all three, and returns statistics whose
`min` is the converted value 7.5 — outside the band the claim says every
selected price satisfies. -/
theorem C6_counterexample :
    survivorsConvertedBand [PriceItem.num 15, PriceItem.num 16, PriceItem.num 17] 2 = [] ∧
      Option.map PriceStatistics.min
          (analyze [PriceItem.num 15, PriceItem.num 16, PriceItem.num 17] 2)
        = some (15 / 2) ∧
      ¬ ((10:ℚ) < 15 / 2) := by
  refine ⟨?_, ?_, by norm_num⟩
  · norm_num [survivorsConvertedBand, extractPrices, List.filter]
  · norm_num [analyze, analyzeStats, adjPrices, cleanPrices, survivors, extractPrices,
      convertPrice, List.insertionSort, List.orderedInsert, List.getD, List.filter,
      List.isEmpty, quantileInc]

/-- C6 amended.  The hard sanity band selects exactly the prices whose
raw (pre-conversion) value lies in `(10, 500)`; whenever `analyze`
returns a record for a positive peg rate, its `min` and `max` are the
least and greatest converted values of that raw-selected set. -/
theorem C6_amended_band_on_raw (prices : List PriceItem) (peg : ℚ) (hpeg : 0 < peg)
    (s : PriceStatistics) (hs : analyze prices peg = some s) :
    (∀ p : ℚ, p ∈ survivors prices ↔ p ∈ extractPrices prices ∧ 10 < p ∧ p < 500) ∧
      s.min ∈ (survivors prices).map (fun p => convertPrice p peg) ∧
      (∀ x ∈ (survivors prices).map (fun p => convertPrice p peg), s.min ≤ x) ∧
      s.max ∈ (survivors prices).map (fun p => convertPrice p peg) ∧
      (∀ x ∈ (survivors prices).map (fun p => convertPrice p peg), x ≤ s.max) := by
  rcases analyze_cases prices peg with ⟨h1, _⟩ | ⟨h1, h2⟩
  · rw [h1] at hs
    cases hs
  · rw [h1] at hs
    obtain rfl := Option.some.inj hs
    have hsorted := sorted_adjPrices prices hpeg
    have hlen : 2 ≤ (adjPrices prices peg).length := by
      rw [adjPrices_length]
      exact h2
    have hperm : (adjPrices prices peg).Perm
        ((survivors prices).map fun p => convertPrice p peg) :=
      (List.perm_insertionSort (· ≤ ·) (survivors prices)).map _
    have hmin := sorted_getD_zero_min hsorted (by omega)
    have hmax := sorted_getD_last_max hsorted (by omega)
    refine ⟨fun p => ?_, ?_, fun x hx => ?_, ?_, fun x hx => ?_⟩
    · simp [survivors, List.mem_filter]
    · exact hperm.mem_iff.1 (by simpa only [analyzeStats] using hmin.1)
    · simpa only [analyzeStats] using hmin.2 x (hperm.mem_iff.2 hx)
    · exact hperm.mem_iff.1 (by simpa only [analyzeStats] using hmax.1)
    · simpa only [analyzeStats] using hmax.2 x (hperm.mem_iff.2 hx)

/-- C6 witness: on the concrete list from C4 with peg rate 1, `analyze`
returns the record and its `min` is among the converted survivors. -/
theorem C6_amended_band_on_raw_witness :
    (0:ℚ) < 1 ∧ analyze pricesC4 1 = some (analyzeStats pricesC4 1) ∧
      (analyzeStats pricesC4 1).min
        ∈ (survivors pricesC4).map fun p => convertPrice p 1 :=
  ⟨by norm_num,
   by norm_num [analyze, pricesC4, cleanPrices, survivors, extractPrices, List.filter, List.isEmpty,
     List.insertionSort, List.orderedInsert],
   (C6_amended_band_on_raw pricesC4 1 (by norm_num) (analyzeStats pricesC4 1)
     (by norm_num [analyze, pricesC4, cleanPrices, survivors, extractPrices, List.filter, List.isEmpty,
       List.insertionSort, List.orderedInsert])).2.1⟩

end EtbMarket
